import Mathlib

/-!
# Verification of the srt-ai subtitle translation core (src/functions.js)

Shallow embedding of the core functions of the repository:

* `groupSegmentsByTokenLength` (src/functions.js lines 56-86) — token-bounded
  grouping of subtitle segments, parameterised by the token estimator
  (`tiktoken`'s `encoding_for_model(AI_MODEL).encode(·).length`), which is an
  external collaborator and is modelled as an arbitrary function
  `String → Nat`.
* `translate` (src/functions.js lines 143-200) — count verification, retry
  controller and translated-content assignment.  The network call
  `getTranslation` is modelled by an oracle `Nat → Option String` giving the
  raw response of each attempt (`none` models the JavaScript `false` return:
  batched/queued or a non-`stop` finish reason).
* `getTranslation`'s batch branch (src/functions.js lines 109-121) — lookup in
  the durable job store and the in-memory pending list.
* `checkBatchStatus` / `pendingJobs` (src/functions.js lines 446-484) — the
  poll cycle of the batch job manager, with the remote OpenAI batch endpoint
  modelled as a function from job id to a remote status.
* the output-file guard of `translatePath` (src/functions.js lines 397-404).

JavaScript peculiarities that matter are embedded explicitly: the truthiness
check `if (!translated)` also rejects the empty string; `matches.every(m =>
m.translatedContent)` treats the empty string and `undefined` as falsy.
-/

set_option linter.unusedVariables false

namespace SrtAi

/-- A subtitle segment as produced by the extraction step of `translatePath`:
a `{header, content}` record; `translatedContent` is added by `translate`
(absent = JavaScript `undefined`, modelled as `none`). -/
structure Segment where
  header : String
  content : String
  translatedContent : Option String := none
deriving DecidableEq, Repr

/-- Loop of `groupSegmentsByTokenLength` (src/functions.js lines 67-82):
iterates over the remaining segments carrying the current group and its
running token count; at the end the final group is flushed only when
non-empty.  `numTokens` is the tiktoken estimator, `budget` the `length`
parameter (`MAX_TOKENS`).  Note the source pushes `currentGroup` in the
else-branch without an emptiness check. -/
def groupGo (numTokens : String → Nat) (budget : Nat) :
    List Segment → List Segment → Nat → List (List Segment)
  | [], currentGroup, _ =>
      if currentGroup.length > 0 then [currentGroup] else []
  | s :: rest, currentGroup, currentGroupTokenCount =>
      let segmentTokenCount := numTokens s.content
      if currentGroupTokenCount + segmentTokenCount ≤ budget then
        groupGo numTokens budget rest (currentGroup ++ [s])
          (currentGroupTokenCount + segmentTokenCount + 4)
      else
        currentGroup :: groupGo numTokens budget rest [s] segmentTokenCount

/-- `groupSegmentsByTokenLength(segments, length)` (src/functions.js
lines 56-86), with the token encoder abstracted as `numTokens`. -/
def groupSegmentsByTokenLength (numTokens : String → Nat)
    (segments : List Segment) (budget : Nat) : List (List Segment) :=
  groupGo numTokens budget segments [] 0

/-- The concatenation of all groups produced by `groupGo` is the pending
input appended to the current group. -/
theorem groupGo_flatten (numTokens : String → Nat) (budget : Nat) :
    ∀ (rest currentGroup : List Segment) (cnt : Nat),
      (groupGo numTokens budget rest currentGroup cnt).flatten = currentGroup ++ rest
  | [], currentGroup, cnt => by
      by_cases h : currentGroup.length > 0 <;>
        simp_all [groupGo, List.length_eq_zero]
  | s :: rest, currentGroup, cnt => by
      simp only [groupGo]
      by_cases h : cnt + numTokens s.content ≤ budget
      · simp only [h, if_pos]
        rw [groupGo_flatten numTokens budget rest (currentGroup ++ [s])]
        simp
      · simp only [h, if_neg, not_false_iff]
        rw [List.flatten_cons, groupGo_flatten numTokens budget rest [s]]
        simp

/-- C1: for every token estimator, segment sequence and budget, concatenating
in order the segments of all groups returned by `groupSegmentsByTokenLength`
reproduces the original input sequence exactly: no segment is dropped,
duplicated, or reordered. -/
theorem groupSegmentsByTokenLength_flatten (numTokens : String → Nat)
    (segments : List Segment) (budget : Nat) :
    (groupSegmentsByTokenLength numTokens segments budget).flatten = segments := by
  rw [groupSegmentsByTokenLength, groupGo_flatten]
  rfl

/-- Sum of the estimated token counts of the segments of a group. -/
def sumTokens (numTokens : String → Nat) (g : List Segment) : Nat :=
  (g.map (fun m => numTokens m.content)).sum

/-- Once the current group is non-empty, every group `groupGo` emits is
non-empty: the else-branch pushes the (non-empty) current group and restarts
from the singleton `[s]`, and the final flush is guarded by `length > 0`. -/
theorem groupGo_ne_nil (numTokens : String → Nat) (budget : Nat) :
    ∀ (rest currentGroup : List Segment) (cnt : Nat), currentGroup ≠ [] →
      ∀ g ∈ groupGo numTokens budget rest currentGroup cnt, g ≠ []
  | [], currentGroup, cnt => by
      intro hne g hg
      simp only [groupGo] at hg
      rw [if_pos (by simpa [List.length_pos] using hne)] at hg
      rw [List.mem_singleton.mp hg]
      exact hne
  | s :: rest, currentGroup, cnt => by
      intro hne g hg
      simp only [groupGo] at hg
      by_cases h : cnt + numTokens s.content ≤ budget
      · rw [if_pos h] at hg
        exact groupGo_ne_nil numTokens budget rest (currentGroup ++ [s]) _
          (by simp) g hg
      · rw [if_neg h] at hg
        rcases List.mem_cons.mp hg with rfl | hg
        · exact hne
        · exact groupGo_ne_nil numTokens budget rest [s] _ (by simp) g hg

/-- If the running token count already exceeds the budget, the current group
is closed unchanged at the next step (or flushed at the end), so it appears
among the emitted groups. -/
theorem groupGo_mem_self (numTokens : String → Nat) (budget : Nat) :
    ∀ (rest currentGroup : List Segment) (cnt : Nat), currentGroup ≠ [] →
      budget < cnt → currentGroup ∈ groupGo numTokens budget rest currentGroup cnt
  | [], currentGroup, cnt => by
      intro hne hcnt
      simp only [groupGo]
      rw [if_pos (by simpa [List.length_pos] using hne)]
      simp
  | s :: rest, currentGroup, cnt => by
      intro hne hcnt
      simp only [groupGo]
      rw [if_neg (by omega)]
      simp

/-- A segment whose token count alone exceeds the budget always ends up alone
in its own group. -/
theorem groupGo_oversized (numTokens : String → Nat) (budget : Nat) :
    ∀ (rest currentGroup : List Segment) (cnt : Nat) (s : Segment), s ∈ rest →
      budget < numTokens s.content →
      [s] ∈ groupGo numTokens budget rest currentGroup cnt
  | [], currentGroup, cnt => by simp
  | t :: rest, currentGroup, cnt => by
      intro s hs hover
      simp only [groupGo]
      rcases List.mem_cons.mp hs with rfl | hs
      · rw [if_neg (by omega)]
        exact List.mem_cons_of_mem _
          (groupGo_mem_self numTokens budget rest [s] _ (by simp) hover)
      · by_cases h : cnt + numTokens t.content ≤ budget
        · rw [if_pos h]
          exact groupGo_oversized numTokens budget rest _ _ s hs hover
        · rw [if_neg h]
          exact List.mem_cons_of_mem _
            (groupGo_oversized numTokens budget rest [t] _ s hs hover)

/-- C2 counterexample: with the token estimate `String.length`, a single
segment of estimated cost `3` and budget `2`, `groupSegmentsByTokenLength`
returns `[[], [s]]`: the else-branch of the loop pushes the still-empty
current group, so an empty group IS produced, contradicting the claim that no
returned group is ever empty. -/
theorem groupSegmentsByTokenLength_empty_group_cex :
    [] ∈ groupSegmentsByTokenLength (fun s => s.length)
        [{ header := "1", content := "abc" }] 2 ∧
    groupSegmentsByTokenLength (fun s => s.length)
        [{ header := "1", content := "abc" }] 2 =
      [[], [{ header := "1", content := "abc" }]] := by
  refine ⟨by decide, by rfl⟩

/-- C2 (amended): no group other than the first is ever empty; the first group
is empty only when the input starts with a segment whose cost alone exceeds
the budget; and a segment whose estimated cost alone exceeds the budget is
still placed alone in its own group (never dropped, never split). -/
theorem groupSegmentsByTokenLength_nonempty_amended (numTokens : String → Nat)
    (segments : List Segment) (budget : Nat) :
    (∀ g ∈ (groupSegmentsByTokenLength numTokens segments budget).tail, g ≠ []) ∧
    ((groupSegmentsByTokenLength numTokens segments budget).head? = some [] →
      ∃ s rest, segments = s :: rest ∧ budget < numTokens s.content) ∧
    (∀ s ∈ segments, budget < numTokens s.content →
      [s] ∈ groupSegmentsByTokenLength numTokens segments budget) := by
  refine ⟨?_, ?_, ?_⟩
  · intro g hg
    rw [groupSegmentsByTokenLength] at hg
    match segments with
    | [] => simp [groupGo] at hg
    | s :: rest =>
      simp only [groupGo] at hg
      by_cases h : 0 + numTokens s.content ≤ budget
      · rw [if_pos h] at hg
        exact groupGo_ne_nil numTokens budget rest [s] _ (by simp) g
          (List.mem_of_mem_tail hg)
      · rw [if_neg h] at hg
        rw [List.tail_cons] at hg
        exact groupGo_ne_nil numTokens budget rest [s] _ (by simp) g hg
  · intro hhead
    rw [groupSegmentsByTokenLength] at hhead
    match segments with
    | [] => simp [groupGo] at hhead
    | s :: rest =>
      refine ⟨s, rest, rfl, ?_⟩
      by_contra hov
      simp only [groupGo] at hhead
      rw [if_pos (by omega)] at hhead
      have := groupGo_ne_nil numTokens budget rest [s]
        (0 + numTokens s.content + 4) (by simp) []
        (List.mem_of_mem_head? hhead)
      exact this rfl
  · intro s hs hover
    exact groupGo_oversized numTokens budget segments [] 0 s hs hover

/-- Witness for the amended C2 theorem at a concrete input: the oversized
segment of the counterexample is indeed alone in its own group. -/
theorem groupSegmentsByTokenLength_nonempty_amended_witness :
    [{ header := "1", content := "abc", translatedContent := none }] ∈
      groupSegmentsByTokenLength (fun s => s.length)
        [{ header := "1", content := "abc" }] 2 :=
  (groupSegmentsByTokenLength_nonempty_amended (fun s => s.length)
    [{ header := "1", content := "abc" }] 2).2.2
    { header := "1", content := "abc" } (by decide) (by decide)

/-- C3 counterexample: with token estimate `String.length`, two segments of
cost `3` each and budget `10`, the code admits both into one group
(`0 + 3 ≤ 10`, then `3 + 4 + 3 = 10 ≤ 10`), but the claimed estimated cost —
sum of per-segment token counts plus the 4-token per-segment delimiter
overhead — is `3 + 3 + 4·2 = 14 > 10`, and the group has two segments, not
one.  So the claim's budget bound fails: the admission check at
src/functions.js line 70 does not charge the incoming segment's own
delimiter overhead. -/
theorem groupSegmentsByTokenLength_budget_cex :
    ¬ (∀ g ∈ groupSegmentsByTokenLength (fun s => s.length)
          [{ header := "1", content := "abc" }, { header := "2", content := "def" }] 10,
        sumTokens (fun s => s.length) g + 4 * g.length ≤ 10 ∨ g.length = 1) := by
  intro h
  have := h [{ header := "1", content := "abc" },
             { header := "2", content := "def" }] (by decide)
  revert this
  decide

/-- Invariant of the grouping loop: the running count over-approximates the
sum of the current group's token counts plus 4 per segment beyond the first,
and any group of two or more segments satisfied the budget check when its
last segment was admitted. -/
theorem groupGo_budget_inv (numTokens : String → Nat) (budget : Nat) :
    ∀ (rest currentGroup : List Segment) (cnt : Nat),
      sumTokens numTokens currentGroup + 4 * (currentGroup.length - 1) ≤ cnt →
      (2 ≤ currentGroup.length →
        sumTokens numTokens currentGroup + 4 * (currentGroup.length - 2) ≤ budget) →
      ∀ g ∈ groupGo numTokens budget rest currentGroup cnt,
        sumTokens numTokens g + 4 * (g.length - 2) ≤ budget ∨ g.length = 1
  | [], currentGroup, cnt => by
      intro h1 h2 g hg
      simp only [groupGo] at hg
      by_cases hlen : currentGroup.length > 0
      · rw [if_pos hlen] at hg
        rw [List.mem_singleton.mp hg]
        rcases Nat.lt_or_ge currentGroup.length 2 with h | h
        · right; omega
        · left; exact h2 h
      · rw [if_neg hlen] at hg
        simp at hg
  | s :: rest, currentGroup, cnt => by
      intro h1 h2 g hg
      simp only [groupGo] at hg
      by_cases h : cnt + numTokens s.content ≤ budget
      · rw [if_pos h] at hg
        refine groupGo_budget_inv numTokens budget rest (currentGroup ++ [s]) _
          ?_ ?_ g hg
        · simp only [sumTokens, List.map_append, List.sum_append,
            List.length_append, List.map_cons, List.map_nil, List.sum_cons,
            List.sum_nil, List.length_cons, List.length_nil]
          simp only [sumTokens] at h1
          rcases List.eq_nil_or_concat currentGroup with rfl | _
          · simp at h1 ⊢
            omega
          · have hpos : 1 ≤ currentGroup.length := by
              rcases currentGroup with _ | _
              · simp_all
              · simp
            omega
        · intro hlen2
          simp only [sumTokens, List.map_append, List.sum_append,
            List.length_append, List.map_cons, List.map_nil, List.sum_cons,
            List.sum_nil, List.length_cons, List.length_nil]
          simp only [sumTokens] at h1
          omega
      · rw [if_neg h] at hg
        rcases List.mem_cons.mp hg with rfl | hg
        · rcases Nat.lt_or_ge g.length 2 with hl | hl
          · rcases Nat.eq_or_lt_of_le (Nat.zero_le g.length) with hz | hz
            · left
              have : g = [] := List.length_eq_zero.mp hz.symm
              subst this
              simp [sumTokens]
            · right; omega
          · left; exact h2 hl
        · refine groupGo_budget_inv numTokens budget rest [s] _ ?_ ?_ g hg
          · simp [sumTokens]
          · intro h2'; simp at h2'
  termination_by rest _ _ => rest.length

/-- C3 (amended): every group produced by `groupSegmentsByTokenLength` has
estimated cost at most the budget — counting the sum of per-segment token
counts plus 4 tokens of delimiter overhead for each segment beyond the second
— or else contains exactly one segment.  (The per-segment-overhead bound of
the original claim fails, see the counterexample: the admission check never
charges the incoming segment's delimiter, and a group restarted by the
else-branch is also missing the charge for its first segment.) -/
theorem groupSegmentsByTokenLength_budget_amended (numTokens : String → Nat)
    (segments : List Segment) (budget : Nat) :
    ∀ g ∈ groupSegmentsByTokenLength numTokens segments budget,
      sumTokens numTokens g + 4 * (g.length - 2) ≤ budget ∨ g.length = 1 := by
  intro g hg
  refine groupGo_budget_inv numTokens budget segments [] 0 ?_ ?_ g hg
  · simp [sumTokens]
  · intro h; simp at h

/-- Witness for the amended C3 theorem: the two-segment group of the
counterexample satisfies the corrected bound `3 + 3 + 4·0 = 6 ≤ 10`. -/
theorem groupSegmentsByTokenLength_budget_amended_witness :
    sumTokens (fun s => s.length)
        [{ header := "1", content := "abc" }, { header := "2", content := "def" }] +
      4 * (([{ header := "1", content := "abc" },
             { header := "2", content := "def" }] : List Segment).length - 2) ≤ 10 ∨
    ([{ header := "1", content := "abc" },
      { header := "2", content := "def" }] : List Segment).length = 1 :=
  groupSegmentsByTokenLength_budget_amended (fun s => s.length)
    [{ header := "1", content := "abc" }, { header := "2", content := "def" }] 10
    [{ header := "1", content := "abc" }, { header := "2", content := "def" }]
    (by decide)


/-- JavaScript whitespace for `String.prototype.trim` (restricted to the
ASCII characters that can occur in model responses split on newlines). -/
def isJsSpace (c : Char) : Bool :=
  c == ' ' || c == '\t' || c == '\n' || c == '\r' || c == '\x0b' || c == '\x0c'

/-- `s.trim()`: removes leading and trailing whitespace. -/
def jsTrim (s : String) : String :=
  String.mk (((s.data.dropWhile isJsSpace).reverse.dropWhile isJsSpace).reverse)

/-- `xs.split(sep)` on a character separator, over the character list:
JavaScript split never returns an empty array, `''.split('\n') = ['']`. -/
def jsSplitChars (sep : Char) : List Char → List (List Char)
  | [] => [[]]
  | c :: cs =>
      match jsSplitChars sep cs with
      | [] => [[c]]
      | x :: xs => if c == sep then [] :: x :: xs else (c :: x) :: xs

/-- `translated.split('\n')` (src/functions.js line 168). -/
def jsSplitNewline (s : String) : List String :=
  (jsSplitChars '\n' s.data).map String.mk

/-- `s.replace(/^(\d+)\. /, '')` (src/functions.js line 168): strips one
leading run of one or more digits followed by a dot and a space, if present. -/
def stripOrdinal (s : String) : String :=
  let ds := s.data.takeWhile Char.isDigit
  if ds.isEmpty then s
  else
    match s.data.drop ds.length with
    | '.' :: ' ' :: rest => String.mk rest
    | _ => s

/-- Parsing of the raw model response (src/functions.js lines 168-171):
split on newlines, trim each fragment, strip its leading ordinal marker, and
drop one trailing empty fragment (`split.at(-1) === ''`). -/
def parseTranslated (translated : String) : List String :=
  let split := (jsSplitNewline translated).map (fun s => stripOrdinal (jsTrim s))
  if split.getLast? = some "" then split.dropLast else split

/-- `group.map(m => m.content).map((s, i) => `(i+1). s`).join('\n')`
(src/functions.js line 144): the numbered prompt text built for a group. -/
def renderGroup (group : List Segment) : String :=
  String.intercalate "\n" ((group.map (fun m => m.content)).enum.map
    (fun p => toString (p.1 + 1) ++ ". " ++ p.2))

/-- The assignment loop of src/functions.js lines 195-197: writes the i-th
parsed fragment into the i-th segment's `translatedContent`. -/
def assignTranslations (group : List Segment) (split : List String) :
    List Segment :=
  List.zipWith (fun m s => { m with translatedContent := some s }) group split

/-- Observable outcome of a `translate(group, number)` call:
* `success` — the boolean the JavaScript function resolves to;
* `group` — the group after any in-place `translatedContent` mutation;
* `errors` — the `(user text, assistant output)` pairs appended to the
  `most-errored.jsonl` corpus (the constant system prompt of each record is
  omitted from the model);
* `attempts` — how many times `getTranslation` was invoked (including
  retries);
* `reported` — the `(observed, expected)` counts of the fatal
  length-mismatch error message, if one was printed. -/
structure TranslateResult where
  success : Bool
  group : List Segment
  errors : List (String × String)
  attempts : Nat
  reported : Option (Nat × Nat)
deriving DecidableEq, Repr

/-- `translate(group, number)` (src/functions.js lines 143-200), with the
recursion re-indexed by `remaining = MAX_TRIES - number`: the source's guard
`number >= MAX_TRIES` is exactly `remaining = 0`, and the recursive call
`translate(group, number + 1)` decreases `remaining` by one.  The oracle
gives the raw text returned by `getTranslation` on each attempt (`none` for
the JavaScript `false`); note the source's `if (!translated)` also treats an
empty response string as falsy.  The batch-mode cache eviction on mismatch
(lines 179-184) touches only the job store, never the segments, and is not
modelled here. -/
def translateAux (oracle : Nat → Option String) (group : List Segment) :
    Nat → Nat → TranslateResult
  | remaining, number =>
    match oracle number with
    | none =>
        { success := false, group := group, errors := [], attempts := 1,
          reported := none }
    | some translated =>
        if translated = "" then
          { success := false, group := group, errors := [], attempts := 1,
            reported := none }
        else
          let text := renderGroup group
          let errs := if 3 < number then [(text, translated)] else []
          let originalSplit := group.map (fun m => m.content)
          let split := parseTranslated translated
          if split.length = originalSplit.length then
            { success := true, group := assignTranslations group split,
              errors := errs, attempts := 1, reported := none }
          else
            match remaining with
            | 0 =>
                { success := false, group := group, errors := errs,
                  attempts := 1,
                  reported := some (split.length, originalSplit.length) }
            | r + 1 =>
                let res := translateAux oracle group r (number + 1)
                { success := res.success, group := res.group,
                  errors := errs ++ res.errors, attempts := res.attempts + 1,
                  reported := res.reported }

/-- `translate(group, number)` with attempt ceiling `MAX_TRIES = maxTries`. -/
def translate (maxTries : Nat) (oracle : Nat → Option String)
    (group : List Segment) (number : Nat) : TranslateResult :=
  translateAux oracle group (maxTries - number) number

example : parseTranslated "" = [] := by rfl
example : parseTranslated "1. X\n2. Y" = ["X", "Y"] := by rfl
example : parseTranslated "1. X\n2. Y\n" = ["X", "Y"] := by rfl
example : parseTranslated " 12. Hello there" = ["Hello there"] := by rfl
example : parseTranslated "No marker" = ["No marker"] := by rfl
example : parseTranslated "1.X" = ["1.X"] := by rfl
example :
    renderGroup [{ header := "h1", content := "a" }, { header := "h2", content := "b" }] =
      "1. a\n2. b" := by rfl
example :
    (translate 2 (fun _ => some "x")
      [{ header := "h1", content := "a" }, { header := "h2", content := "b" }] 0) =
    { success := false,
      group := [{ header := "h1", content := "a" }, { header := "h2", content := "b" }],
      errors := [],
      attempts := 3,
      reported := some (1, 2) } := by rfl

/-- Positional content of the assignment loop: when the parsed fragment list
has the same length as the group, the i-th output segment carries the i-th
fragment as its `translatedContent`. -/
theorem assignTranslations_getElem? :
    ∀ (group : List Segment) (split : List String) (i : Nat),
      i < group.length → split.length = group.length →
      ((assignTranslations group split)[i]?).map Segment.translatedContent =
        some (split[i]?)
  | [], split, i => by intro h _; simp at h
  | m :: group, split, i => by
      intro hi hlen
      match split with
      | [] => simp at hlen
      | s :: split =>
        match i with
        | 0 => simp [assignTranslations]
        | i + 1 =>
          simp only [assignTranslations, List.zipWith_cons_cons,
            List.getElem?_cons_succ]
          exact assignTranslations_getElem? group split i
            (by simpa using hi) (by simpa using hlen)

/-- C4 (amended with "non-empty group"): for every non-empty group, attempt
number and ceiling, if the raw model response parses to exactly as many
fragments as the group has segments, `translate` sets the i-th segment's
`translatedContent` to the i-th parsed fragment for every position i and
returns success. -/
theorem translate_matching_success (maxTries number : Nat)
    (group : List Segment) (t : String) (hne : group ≠ [])
    (hlen : (parseTranslated t).length = group.length) :
    (translate maxTries (fun _ => some t) group number).success = true ∧
    (translate maxTries (fun _ => some t) group number).group =
      assignTranslations group (parseTranslated t) ∧
    ∀ i, i < group.length →
      (((translate maxTries (fun _ => some t) group number).group)[i]?).map
          Segment.translatedContent = some ((parseTranslated t)[i]?) := by
  have ht : ¬ (t = "") := by
    intro h
    subst h
    have hnil : parseTranslated "" = [] := by rfl
    rw [hnil] at hlen
    exact hne (List.length_eq_zero.mp hlen.symm)
  have hcond : (parseTranslated t).length =
      (group.map (fun m => m.content)).length := by
    simpa [List.length_map] using hlen
  have hkey : translate maxTries (fun _ => some t) group number =
      { success := true, group := assignTranslations group (parseTranslated t),
        errors := if 3 < number then [(renderGroup group, t)] else [],
        attempts := 1, reported := none } := by
    rw [translate, translateAux]
    simp only [if_neg ht, if_pos hcond]
  rw [hkey]
  refine ⟨rfl, rfl, ?_⟩
  intro i hi
  exact assignTranslations_getElem? group (parseTranslated t) i hi hlen

/-- C4 counterexample (to the unamended claim): for the empty group and the
empty raw response, the response parses to zero fragments — exactly the
group's segment count — yet `translate` returns `false`, because the
JavaScript guard `if (!translated)` (src/functions.js line 148) treats the
empty response string as falsy and bails out before the length check. -/
theorem translate_matching_success_cex :
    (parseTranslated "").length = ([] : List Segment).length ∧
    (translate 5 (fun _ => some "") [] 0).success = false := by
  refine ⟨by rfl, by rfl⟩

/-- Witness for the amended C4 theorem at a concrete input: a two-segment
group and the response `"1. X\n2. Y"`. -/
theorem translate_matching_success_witness :
    (translate 5 (fun _ => some "1. X\n2. Y")
        [{ header := "h1", content := "a" }, { header := "h2", content := "b" }] 0).success
      = true ∧
    (((translate 5 (fun _ => some "1. X\n2. Y")
        [{ header := "h1", content := "a" }, { header := "h2", content := "b" }] 0).group)[0]?).map
        Segment.translatedContent = some ((parseTranslated "1. X\n2. Y")[0]?) :=
  ⟨(translate_matching_success 5 0
      [{ header := "h1", content := "a" }, { header := "h2", content := "b" }]
      "1. X\n2. Y" (by decide) (by rfl)).1,
   (translate_matching_success 5 0
      [{ header := "h1", content := "a" }, { header := "h2", content := "b" }]
      "1. X\n2. Y" (by decide) (by rfl)).2.2 0 (by decide)⟩

/-- If every attempt from `number` through `number + remaining` yields a
non-empty response whose parsed fragment count differs from the group's
segment count, the retry loop ends in failure with the group untouched and
the last mismatch reported. -/
theorem translateAux_all_mismatch (oracle : Nat → Option String)
    (group : List Segment) :
    ∀ (remaining number : Nat),
      (∀ n, number ≤ n → n ≤ number + remaining →
        ∃ t, oracle n = some t ∧ t ≠ "" ∧
          (parseTranslated t).length ≠ group.length) →
      (translateAux oracle group remaining number).success = false ∧
      (translateAux oracle group remaining number).group = group ∧
      ∃ obs, (translateAux oracle group remaining number).reported =
          some (obs, group.length) ∧ obs ≠ group.length
  | 0, number => by
      intro h
      obtain ⟨t, ht, htne, htlen⟩ := h number (Nat.le_refl _) (by omega)
      have hcond : ¬ ((parseTranslated t).length =
          (group.map (fun m => m.content)).length) := by
        simpa [List.length_map] using htlen
      rw [translateAux]
      simp only [ht, if_neg htne, if_neg hcond]
      refine ⟨by trivial, by trivial, (parseTranslated t).length,
        by simp [List.length_map], htlen⟩
  | r + 1, number => by
      intro h
      obtain ⟨t, ht, htne, htlen⟩ := h number (Nat.le_refl _) (by omega)
      have hcond : ¬ ((parseTranslated t).length =
          (group.map (fun m => m.content)).length) := by
        simpa [List.length_map] using htlen
      have ih := translateAux_all_mismatch oracle group r (number + 1)
        (fun n h1 h2 => h n (by omega) (by omega))
      rw [translateAux]
      simp only [ht, if_neg htne, if_neg hcond]
      exact ⟨ih.1, ih.2.1, ih.2.2⟩

/-- C5: if the parsed output segment count differs from the group's segment
count on every attempt up to the configured maximum `MAX_TRIES`, then
`translate(group, 0)` returns failure, the group's segments are returned
exactly as they went in — no `translatedContent` is ever assigned — and the
fatal report carries the observed and expected counts (src/functions.js
line 186). -/
theorem translate_exhausted_failure (maxTries : Nat)
    (oracle : Nat → Option String) (group : List Segment)
    (h : ∀ n, n ≤ maxTries →
      ∃ t, oracle n = some t ∧ t ≠ "" ∧
        (parseTranslated t).length ≠ group.length) :
    (translate maxTries oracle group 0).success = false ∧
    (translate maxTries oracle group 0).group = group ∧
    ∃ obs, (translate maxTries oracle group 0).reported =
        some (obs, group.length) ∧ obs ≠ group.length := by
  rw [translate, Nat.sub_zero]
  exact translateAux_all_mismatch oracle group maxTries 0
    (fun n h1 h2 => h n (by omega))

/-- Witness for C5 at a concrete input: ceiling 2, a two-segment group and a
one-line response on every attempt; the fatal report is `1/2`. -/
theorem translate_exhausted_failure_witness :
    (translate 2 (fun _ => some "x")
        [{ header := "h1", content := "a" }, { header := "h2", content := "b" }] 0).success
      = false ∧
    (translate 2 (fun _ => some "x")
        [{ header := "h1", content := "a" }, { header := "h2", content := "b" }] 0).group
      = [{ header := "h1", content := "a" }, { header := "h2", content := "b" }] ∧
    (translate 2 (fun _ => some "x")
        [{ header := "h1", content := "a" }, { header := "h2", content := "b" }] 0).reported
      = some (1, 2) :=
  ⟨(translate_exhausted_failure 2 (fun _ => some "x")
      [{ header := "h1", content := "a" }, { header := "h2", content := "b" }]
      (fun n _ => ⟨"x", rfl, by decide, by decide⟩)).1,
   (translate_exhausted_failure 2 (fun _ => some "x")
      [{ header := "h1", content := "a" }, { header := "h2", content := "b" }]
      (fun n _ => ⟨"x", rfl, by decide, by decide⟩)).2.1,
   by rfl⟩

/-- The number of `getTranslation` calls a `translateAux` run makes is at
most `remaining + 1`. -/
theorem translateAux_attempts (oracle : Nat → Option String)
    (group : List Segment) :
    ∀ (remaining number : Nat),
      (translateAux oracle group remaining number).attempts ≤ remaining + 1
  | 0, number => by
      rw [translateAux]
      cases ho : oracle number with
      | none => simp
      | some t =>
        by_cases ht : t = ""
        · simp [ht]
        · simp only [if_neg ht]
          by_cases hc : (parseTranslated t).length =
              (group.map (fun m => m.content)).length
          · simp [hc]
          · have hc2 : ¬ ((parseTranslated t).length = group.length) := by
              simpa [List.length_map] using hc
            simp [hc2]
  | r + 1, number => by
      rw [translateAux]
      cases ho : oracle number with
      | none => simp
      | some t =>
        by_cases ht : t = ""
        · simp [ht]
        · simp only [if_neg ht]
          by_cases hc : (parseTranslated t).length =
              (group.map (fun m => m.content)).length
          · simp [hc]
          · simp only [if_neg hc]
            have := translateAux_attempts oracle group r (number + 1)
            omega

/-- C8: on a count mismatch with the attempt counter below the ceiling,
`translate` resubmits the entire group — its result (both the returned
boolean and the final segment list) is exactly that of
`translate(group, number + 1)` — and every run makes at most
`MAX_TRIES - number + 1` calls in total (at most `MAX_TRIES` retries beyond
the initial attempt when started at `number = 0`), so the recursion
terminates for every input. -/
theorem translate_retry_bounded (maxTries : Nat)
    (oracle : Nat → Option String) :
    (∀ (group : List Segment) (number : Nat) (t : String),
      number < maxTries → oracle number = some t → t ≠ "" →
      (parseTranslated t).length ≠ group.length →
      (translate maxTries oracle group number).success =
        (translate maxTries oracle group (number + 1)).success ∧
      (translate maxTries oracle group number).group =
        (translate maxTries oracle group (number + 1)).group) ∧
    (∀ (group : List Segment) (number : Nat),
      (translate maxTries oracle group number).attempts ≤
        maxTries - number + 1) := by
  constructor
  · intro group number t hlt ho htne htlen
    have hcond : ¬ ((parseTranslated t).length =
        (group.map (fun m => m.content)).length) := by
      simpa [List.length_map] using htlen
    obtain ⟨r, hr⟩ : ∃ r, maxTries - number = r + 1 :=
      ⟨maxTries - number - 1, by omega⟩
    have hr' : maxTries - (number + 1) = r := by omega
    rw [translate, translate, hr, hr', translateAux]
    simp only [ho, if_neg htne, if_neg hcond]
    exact ⟨by trivial, by trivial⟩
  · intro group number
    rw [translate]
    exact translateAux_attempts oracle group (maxTries - number) number

/-- Witness for C8 at a concrete input: ceiling 2, mismatching one-line
responses; the retry at attempt 0 resubmits the whole two-segment group, and
the run from attempt 0 makes at most 3 calls. -/
theorem translate_retry_bounded_witness :
    ((translate 2 (fun _ => some "x")
        [{ header := "h1", content := "a" }, { header := "h2", content := "b" }] 0).success =
      (translate 2 (fun _ => some "x")
        [{ header := "h1", content := "a" }, { header := "h2", content := "b" }] 1).success ∧
     (translate 2 (fun _ => some "x")
        [{ header := "h1", content := "a" }, { header := "h2", content := "b" }] 0).group =
      (translate 2 (fun _ => some "x")
        [{ header := "h1", content := "a" }, { header := "h2", content := "b" }] 1).group) ∧
    (translate 2 (fun _ => some "x")
        [{ header := "h1", content := "a" }, { header := "h2", content := "b" }] 0).attempts ≤
      2 - 0 + 1 :=
  ⟨(translate_retry_bounded 2 (fun _ => some "x")).1
      [{ header := "h1", content := "a" }, { header := "h2", content := "b" }] 0 "x"
      (by decide) rfl (by decide) (by decide),
   (translate_retry_bounded 2 (fun _ => some "x")).2
      [{ header := "h1", content := "a" }, { header := "h2", content := "b" }] 0⟩

/-- C9: for every call to `translate` whose attempt number exceeds the
near-maximum threshold 3 but has not yet reached final exhaustion, the
`{prompt, input, output}` record — modelled by its variable part, the
`(user text, assistant output)` pair under the constant system prompt — is
appended to the `most-errored.jsonl` corpus (src/functions.js lines 153-165),
and this happens regardless of whether that attempt ultimately succeeds: the
append precedes the length check, so the record is present in the run's
error output in the success, retry and fatal branches alike. -/
theorem translate_error_corpus (maxTries number : Nat)
    (oracle : Nat → Option String) (group : List Segment) (t : String)
    (h3 : 3 < number) (hmax : number < maxTries)
    (ho : oracle number = some t) (htne : t ≠ "") :
    (renderGroup group, t) ∈ (translate maxTries oracle group number).errors := by
  rw [translate, translateAux]
  simp only [ho, if_neg htne, if_pos h3]
  by_cases hc : (parseTranslated t).length =
      (group.map (fun m => m.content)).length
  · simp [hc]
  · simp only [if_neg hc]
    obtain ⟨r, hr⟩ : ∃ r, maxTries - number = r + 1 :=
      ⟨maxTries - number - 1, by omega⟩
    rw [hr]
    simp

/-- Witness for C9 at a concrete input: attempt number 4 with ceiling 6 and a
mismatching response; the record for the two-segment group is in the
corpus. -/
theorem translate_error_corpus_witness :
    (renderGroup [{ header := "h1", content := "a" }, { header := "h2", content := "b" }],
      "x") ∈
      (translate 6 (fun _ => some "x")
        [{ header := "h1", content := "a" }, { header := "h2", content := "b" }] 4).errors :=
  translate_error_corpus 6 4 (fun _ => some "x")
    [{ header := "h1", content := "a" }, { header := "h2", content := "b" }] "x"
    (by decide) (by decide) rfl (by decide)

/-- One entry of a batch job's `requests` array (src/functions.js
lines 427-433): keyed by the verbatim request text; `result` is filled in by
`checkBatchStatus`. -/
structure BatchRequest where
  content : String
  result : Option String := none
deriving DecidableEq, Repr

/-- A persisted batch job in `cache.json` (the fields of the stored object
the code reads: `id`, `finished`, `requests`). -/
structure BatchJob where
  id : String
  finished : Bool := false
  requests : List BatchRequest
deriving DecidableEq, Repr

/-- The batch branch of `getTranslation(text)` (src/functions.js
lines 109-120) as a pure state transition on `(jobs, toBatch)`: look for a
job in the durable store containing a request with identical verbatim text;
if found, return its stored result when the job is finished (`none`
otherwise), touching nothing; if not found, append a new request to the
in-memory pending list and return `none` (= the JavaScript `false`, i.e.
queued).  A pending-list entry is modelled by its request text, which is what
`batchTranslations` later stores as the request's `content`; the random
`custom_id` is not modelled. -/
def getTranslationBatch (jobs : List BatchJob) (toBatch : List String)
    (text : String) : Option String × List String :=
  match jobs.find? (fun j => j.requests.any (fun r => r.content == text)) with
  | some job =>
      (if job.finished then
          (job.requests.find? (fun r => r.content == text)).bind
            (fun r => r.result)
        else none,
       toBatch)
  | none => (none, toBatch ++ [text])

/-- C6 counterexample: starting from an empty durable job store, requesting
the same verbatim text twice before the pending list is submitted appends
TWO entries to the in-memory pending list — the lookup at src/functions.js
line 110 consults only the job store `jobs`, never the pending list
`toBatch`, so the second request does not reuse the first's queued entry. -/
theorem getTranslationBatch_dedup_cex :
    (getTranslationBatch [] [] "hello").2 = ["hello"] ∧
    (getTranslationBatch [] (getTranslationBatch [] [] "hello").2 "hello").2 =
      ["hello", "hello"] := by
  refine ⟨by rfl, by rfl⟩

/-- C6 (amended): deduplication holds against the durable job store only —
if the verbatim text already belongs to a stored (submitted) job and that job
is unresolved, a new request returns queued (`none`) and leaves the pending
list untouched; but two requests for the same text made before the pending
list is submitted as a job each append their own entry. -/
theorem getTranslationBatch_dedup_amended (jobs : List BatchJob)
    (toBatch : List String) (text : String) (job : BatchJob)
    (hfind : jobs.find? (fun j => j.requests.any (fun r => r.content == text)) =
      some job)
    (hunres : job.finished = false) :
    getTranslationBatch jobs toBatch text = (none, toBatch) := by
  rw [getTranslationBatch, hfind]
  simp [hunres]

/-- Witness for the amended C6 theorem: a store holding one unresolved job
with the request `"hello"`; a second request for `"hello"` returns queued
and adds nothing. -/
theorem getTranslationBatch_dedup_amended_witness :
    getTranslationBatch [{ id := "b1", requests := [{ content := "hello" }] }]
      [] "hello" = (none, []) :=
  getTranslationBatch_dedup_amended
    [{ id := "b1", requests := [{ content := "hello" }] }] [] "hello"
    { id := "b1", requests := [{ content := "hello" }] } (by rfl) rfl

/-- JavaScript truthiness of a possibly-absent string: `undefined` and the
empty string are falsy. -/
def jsTruthy : Option String → Bool
  | none => false
  | some s => !(s == "")

/-- The output-file step of `translatePath` (src/functions.js lines 397-404):
the subtitle file content is built and written only when
`matches.every(m => m.translatedContent)` holds; otherwise nothing is
written (`none`). -/
def finalizeOutput (ms : List Segment) : Option String :=
  if ms.all (fun m => jsTruthy m.translatedContent) then
    some (String.intercalate "\n\n"
      (ms.map (fun m => m.header ++ m.translatedContent.getD "")))
  else none

/-- C10: `translatePath` writes the output subtitle file exactly when every
segment's `translatedContent` is truthy in the JavaScript sense; in
particular a segment whose assigned translation is the empty string counts
as untranslated, so the output file is withheld (all-or-nothing) even though
every segment received an assignment. -/
theorem finalizeOutput_all_or_nothing (ms : List Segment) :
    ((finalizeOutput ms).isSome = true ↔
      ∀ m ∈ ms, jsTruthy m.translatedContent = true) ∧
    (∀ m ∈ ms, m.translatedContent = some "" →
      finalizeOutput ms = none) := by
  constructor
  · rw [finalizeOutput]
    by_cases h : ms.all (fun m => jsTruthy m.translatedContent)
    · simp only [if_pos h, Option.isSome_some]
      simpa [List.all_eq_true] using h
    · simp only [if_neg h, Option.isSome_none]
      constructor
      · intro hfalse; exact absurd hfalse (by decide)
      · intro hall
        exact absurd (List.all_eq_true.mpr (fun m hm => hall m hm)) h
  · intro m hm hempty
    rw [finalizeOutput, if_neg]
    intro hall
    have := List.all_eq_true.mp hall m hm
    rw [hempty] at this
    simp [jsTruthy] at this

/-- Witness for C10: a two-segment list where both segments received an
assignment but one translation is the empty string; no file content is
produced. -/
theorem finalizeOutput_all_or_nothing_witness :
    finalizeOutput
      [{ header := "h1", content := "a", translatedContent := some "x" },
       { header := "h2", content := "b", translatedContent := some "" }] = none :=
  (finalizeOutput_all_or_nothing
      [{ header := "h1", content := "a", translatedContent := some "x" },
       { header := "h2", content := "b", translatedContent := some "" }]).2
    { header := "h2", content := "b", translatedContent := some "" }
    (by decide) rfl

/-- Status of a remote batch as observed by `openai.batches.retrieve(job.id)`
(src/functions.js line 454): `completed` carries the parsed per-request
output contents when an `output_file_id` exists (`none` models a completed
batch whose requests all errored, i.e. no results artifact); `inProgress`
stands for every other remote status. -/
inductive RemoteStatus where
  | completed : Option (List String) → RemoteStatus
  | failed : RemoteStatus
  | inProgress : RemoteStatus
deriving DecidableEq, Repr

/-- The result-copy loop of src/functions.js lines 467-469: writes the i-th
output record into the i-th request's `result` field; requests beyond the
output list keep their previous `result`. -/
def setResults : List BatchRequest → List String → List BatchRequest
  | rs, [] => rs
  | [], _ :: _ => []
  | r :: rs, o :: os => { r with result := some o } :: setResults rs os

/-- The job updated by a successful `completed` poll: results copied in by
position, `finished` set to `true` (src/functions.js lines 467-470). -/
def completeJob (j : BatchJob) (outputs : List String) : BatchJob :=
  { j with requests := setResults j.requests outputs, finished := true }

/-- One iteration of the `checkBatchStatus` loop (src/functions.js
lines 452-478) for a single job: a finished job is skipped without any
network call; otherwise the remote status is queried (the second component
collects the ids for which network calls were made).  On `completed` with a
results artifact the results are copied in and the job is marked finished —
if the artifact held more records than the job has requests the JavaScript
assignment `job.requests[i].result = ...` throws (modelled as
`Except.error`).  On `completed` without an artifact, and on `failed`, the
job is dropped from the store; any other status leaves it untouched. -/
def processJob (remote : String → RemoteStatus) (j : BatchJob) :
    Except Unit (Option BatchJob × List String) :=
  if j.finished then Except.ok (some j, [])
  else
    match remote j.id with
    | RemoteStatus.completed (some outputs) =>
        if j.requests.length < outputs.length then Except.error ()
        else Except.ok (some (completeJob j outputs), [j.id])
    | RemoteStatus.completed none => Except.ok (none, [j.id])
    | RemoteStatus.failed => Except.ok (none, [j.id])
    | RemoteStatus.inProgress => Except.ok (some j, [j.id])

/-- The `for (const job of [...jobs])` loop of `checkBatchStatus`, processing
the snapshot left to right.  The JavaScript loop mutates shared job objects
and rebinds the global `jobs` via `filter` on ids; with distinct job ids this
is observationally the per-job keep/update/drop pass modelled here.  A thrown
exception aborts the remaining iterations (and the final persist), modelled
by `Except.error`. -/
def pollJobs (remote : String → RemoteStatus) :
    List BatchJob → Except Unit (List BatchJob × List String)
  | [] => Except.ok ([], [])
  | j :: rest =>
      match processJob remote j with
      | Except.error e => Except.error e
      | Except.ok (oj, q) =>
          match pollJobs remote rest with
          | Except.error e => Except.error e
          | Except.ok (js, qs) => Except.ok (oj.toList ++ js, q ++ qs)

/-- `pendingJobs()` (src/functions.js lines 482-484). -/
def pendingJobs (jobs : List BatchJob) : List BatchJob :=
  jobs.filter (fun j => !j.finished)

/-- `checkBatchStatus()` (src/functions.js lines 446-480): returns early
when no job is pending; otherwise processes every job of the snapshot.  The
returned job list is what `fs.writeFileSync(cachePath, ...)` persists at
line 479; the returned id list records which job ids were queried over the
network during the cycle. -/
def checkBatchStatus (remote : String → RemoteStatus) (jobs : List BatchJob) :
    Except Unit (List BatchJob × List String) :=
  if (pendingJobs jobs).length = 0 then Except.ok (jobs, [])
  else pollJobs remote jobs

/-- Positional content of the result-copy loop: with one output record per
request, the i-th request of the completed job carries the i-th output. -/
theorem setResults_getElem? :
    ∀ (rs : List BatchRequest) (os : List String) (i : Nat),
      os.length = rs.length → i < rs.length →
      ((setResults rs os)[i]?).map BatchRequest.result = some (os[i]?)
  | [], os, i => by intro _ h; simp at h
  | r :: rs, os, i => by
      intro hlen hi
      match os with
      | [] => simp at hlen
      | o :: os =>
        match i with
        | 0 => simp [setResults]
        | i + 1 =>
          simp only [setResults, List.getElem?_cons_succ]
          exact setResults_getElem? rs os i (by simpa using hlen)
            (by simpa using hi)

/-- An unfinished job whose remote status is `completed` with exactly one
output record per request is processed into its completed form, with one
network call to its id. -/
theorem processJob_completed (remote : String → RemoteStatus) (j : BatchJob)
    (outputs : List String) (hf : j.finished = false)
    (hrem : remote j.id = RemoteStatus.completed (some outputs))
    (hlen : outputs.length = j.requests.length) :
    processJob remote j = Except.ok (some (completeJob j outputs), [j.id]) := by
  rw [processJob, if_neg (by simp [hf])]
  simp only [hrem]
  rw [if_neg (by omega)]

/-- The id of a job surviving `processJob` is unchanged. -/
theorem processJob_id (remote : String → RemoteStatus) (j j' : BatchJob)
    (q : List String) (h : processJob remote j = Except.ok (some j', q)) :
    j'.id = j.id := by
  rw [processJob] at h
  split at h
  · simp only [Except.ok.injEq, Prod.mk.injEq, Option.some.injEq] at h
    rw [← h.1]
  · split at h
    · split at h
      · simp at h
      · simp only [Except.ok.injEq, Prod.mk.injEq, Option.some.injEq] at h
        rw [← h.1, completeJob]
    · simp at h
    · simp at h
    · simp only [Except.ok.injEq, Prod.mk.injEq, Option.some.injEq] at h
      rw [← h.1]

/-- A network call during `processJob` only happens for the processed job's
own id, and only when it was not yet finished. -/
theorem processJob_queried (remote : String → RemoteStatus) (j : BatchJob)
    (oj : Option BatchJob) (q : List String) (x : String)
    (h : processJob remote j = Except.ok (oj, q)) (hx : x ∈ q) :
    j.finished = false ∧ j.id = x := by
  rw [processJob] at h
  split at h
  · simp only [Except.ok.injEq, Prod.mk.injEq] at h
    rw [← h.2] at hx
    simp at hx
  · rename_i hf
    refine ⟨by simpa using hf, ?_⟩
    split at h
    · split at h
      · simp at h
      · simp only [Except.ok.injEq, Prod.mk.injEq] at h
        rw [← h.2] at hx
        exact (List.mem_singleton.mp hx).symm
    · simp only [Except.ok.injEq, Prod.mk.injEq] at h
      rw [← h.2] at hx
      exact (List.mem_singleton.mp hx).symm
    · simp only [Except.ok.injEq, Prod.mk.injEq] at h
      rw [← h.2] at hx
      exact (List.mem_singleton.mp hx).symm
    · simp only [Except.ok.injEq, Prod.mk.injEq] at h
      rw [← h.2] at hx
      exact (List.mem_singleton.mp hx).symm

/-- A job of the snapshot whose processing keeps (or updates) it appears in
the poll cycle's resulting job list. -/
theorem pollJobs_mem (remote : String → RemoteStatus) :
    ∀ (jobs jobs' : List BatchJob) (q : List String) (j j' : BatchJob)
      (q' : List String),
      pollJobs remote jobs = Except.ok (jobs', q) → j ∈ jobs →
      processJob remote j = Except.ok (some j', q') → j' ∈ jobs'
  | [], jobs', q, j, j', q' => by
      intro _ hmem _
      simp at hmem
  | k :: rest, jobs', q, j, j', q' => by
      intro hpoll hmem hproc
      rw [pollJobs] at hpoll
      cases hk : processJob remote k with
      | error e => rw [hk] at hpoll; simp at hpoll
      | ok p =>
        obtain ⟨oj, qk⟩ := p
        rw [hk] at hpoll
        cases hr : pollJobs remote rest with
        | error e => rw [hr] at hpoll; simp at hpoll
        | ok pr =>
          obtain ⟨js, qs⟩ := pr
          rw [hr] at hpoll
          simp only [Except.ok.injEq, Prod.mk.injEq] at hpoll
          rw [← hpoll.1]
          rcases List.mem_cons.mp hmem with rfl | hmem'
          · rw [hproc] at hk
            simp only [Except.ok.injEq, Prod.mk.injEq] at hk
            apply List.mem_append_left
            rw [← hk.1]
            simp
          · exact List.mem_append_right _
              (pollJobs_mem remote rest js qs j j' q' hr hmem' hproc)

/-- Every job in the poll cycle's resulting list originates from processing
some job of the snapshot. -/
theorem pollJobs_source (remote : String → RemoteStatus) :
    ∀ (jobs jobs' : List BatchJob) (q : List String) (k' : BatchJob),
      pollJobs remote jobs = Except.ok (jobs', q) → k' ∈ jobs' →
      ∃ k, k ∈ jobs ∧ ∃ qk, processJob remote k = Except.ok (some k', qk)
  | [], jobs', q, k' => by
      intro hpoll hmem
      rw [pollJobs] at hpoll
      simp only [Except.ok.injEq, Prod.mk.injEq] at hpoll
      rw [← hpoll.1] at hmem
      simp at hmem
  | k :: rest, jobs', q, k' => by
      intro hpoll hmem
      rw [pollJobs] at hpoll
      cases hk : processJob remote k with
      | error e => rw [hk] at hpoll; simp at hpoll
      | ok p =>
        obtain ⟨oj, qk⟩ := p
        rw [hk] at hpoll
        cases hr : pollJobs remote rest with
        | error e => rw [hr] at hpoll; simp at hpoll
        | ok pr =>
          obtain ⟨js, qs⟩ := pr
          rw [hr] at hpoll
          simp only [Except.ok.injEq, Prod.mk.injEq] at hpoll
          rw [← hpoll.1] at hmem
          rcases List.mem_append.mp hmem with hoj | hjs
          · refine ⟨k, List.mem_cons_self _ _, qk, ?_⟩
            cases oj with
            | none => simp at hoj
            | some kk =>
                rw [hk]
                simp only [Option.toList_some, List.mem_singleton] at hoj
                rw [hoj]
          · obtain ⟨kk, hk1, hk2⟩ :=
              pollJobs_source remote rest js qs k' hr hjs
            exact ⟨kk, List.mem_cons_of_mem _ hk1, hk2⟩

/-- Every id queried over the network during a poll cycle is the id of an
unfinished job of the snapshot. -/
theorem pollJobs_queried (remote : String → RemoteStatus) :
    ∀ (jobs jobs' : List BatchJob) (q : List String) (x : String),
      pollJobs remote jobs = Except.ok (jobs', q) → x ∈ q →
      ∃ k, k ∈ jobs ∧ k.finished = false ∧ k.id = x
  | [], jobs', q, x => by
      intro hpoll hx
      rw [pollJobs] at hpoll
      simp only [Except.ok.injEq, Prod.mk.injEq] at hpoll
      rw [← hpoll.2] at hx
      simp at hx
  | k :: rest, jobs', q, x => by
      intro hpoll hx
      rw [pollJobs] at hpoll
      cases hk : processJob remote k with
      | error e => rw [hk] at hpoll; simp at hpoll
      | ok p =>
        obtain ⟨oj, qk⟩ := p
        rw [hk] at hpoll
        cases hr : pollJobs remote rest with
        | error e => rw [hr] at hpoll; simp at hpoll
        | ok pr =>
          obtain ⟨js, qs⟩ := pr
          rw [hr] at hpoll
          simp only [Except.ok.injEq, Prod.mk.injEq] at hpoll
          rw [← hpoll.2] at hx
          rcases List.mem_append.mp hx with hqk | hqs
          · obtain ⟨h1, h2⟩ := processJob_queried remote k oj qk x hk hqk
            exact ⟨k, List.mem_cons_self _ _, h1, h2⟩
          · obtain ⟨kk, hk1, hk2, hk3⟩ :=
              pollJobs_queried remote rest js qs x hr hqs
            exact ⟨kk, List.mem_cons_of_mem _ hk1, hk2, hk3⟩

/-- C7: if a poll cycle (that runs to completion) processes an active
(`finished = false`) job whose remote status is `completed` with a results
artifact holding one output record per request, then the job list it leaves
behind — which is exactly what is persisted to `cache.json` — contains the
job with every request's `result` set to the output record at the same
position and `finished = true`; and any subsequent poll cycle (over a store
with distinct job ids) skips that job, so no further network call is made
for its id. -/
theorem checkBatchStatus_completed_job (remote remote2 : String → RemoteStatus)
    (jobs jobs2 jobs3 : List BatchJob) (q1 q2 : List String) (j : BatchJob)
    (outputs : List String)
    (hmem : j ∈ jobs) (hact : j.finished = false)
    (hrem : remote j.id = RemoteStatus.completed (some outputs))
    (hlen : outputs.length = j.requests.length)
    (hnodup : (jobs.map BatchJob.id).Nodup)
    (hpoll1 : checkBatchStatus remote jobs = Except.ok (jobs2, q1))
    (hpoll2 : checkBatchStatus remote2 jobs2 = Except.ok (jobs3, q2)) :
    completeJob j outputs ∈ jobs2 ∧
    (∀ i, i < j.requests.length →
      ((setResults j.requests outputs)[i]?).map BatchRequest.result =
        some (outputs[i]?)) ∧
    j.id ∉ q2 := by
  have hpend : ¬ ((pendingJobs jobs).length = 0) := by
    intro h0
    have hjp : j ∈ pendingJobs jobs := by
      simp [pendingJobs, List.mem_filter, hmem, hact]
    rw [List.length_eq_zero.mp h0] at hjp
    simp at hjp
  rw [checkBatchStatus, if_neg hpend] at hpoll1
  have hproc : processJob remote j =
      Except.ok (some (completeJob j outputs), [j.id]) :=
    processJob_completed remote j outputs hact hrem hlen
  refine ⟨pollJobs_mem remote jobs jobs2 q1 j _ _ hpoll1 hmem hproc,
    fun i hi => setResults_getElem? j.requests outputs i hlen hi, ?_⟩
  have hfin : ∀ k', k' ∈ jobs2 → k'.id = j.id → k'.finished = true := by
    intro k' hk' hid
    obtain ⟨k, hkmem, qk, hkproc⟩ :=
      pollJobs_source remote jobs jobs2 q1 k' hpoll1 hk'
    have hkid : k'.id = k.id := processJob_id remote k k' qk hkproc
    have hkj : k = j :=
      List.inj_on_of_nodup_map hnodup hkmem hmem (by rw [← hkid, hid])
    subst hkj
    rw [hproc] at hkproc
    simp only [Except.ok.injEq, Prod.mk.injEq, Option.some.injEq] at hkproc
    rw [← hkproc.1, completeJob]
  intro hxq
  rw [checkBatchStatus] at hpoll2
  by_cases h0 : (pendingJobs jobs2).length = 0
  · rw [if_pos h0] at hpoll2
    simp only [Except.ok.injEq, Prod.mk.injEq] at hpoll2
    rw [← hpoll2.2] at hxq
    simp at hxq
  · rw [if_neg h0] at hpoll2
    obtain ⟨k, hkmem, hkfin, hkid⟩ :=
      pollJobs_queried remote2 jobs2 jobs3 q2 j.id hpoll2 hxq
    rw [hfin k hkmem hkid] at hkfin
    simp at hkfin

/-- Concrete one-job store for the C7 witness. -/
def sampleJob : BatchJob :=
  { id := "job1", requests := [{ content := "a" }, { content := "b" }] }

/-- Remote endpoint for the C7 witness: the batch is completed with two
output records. -/
def sampleRemote : String → RemoteStatus :=
  fun _ => RemoteStatus.completed (some ["ra", "rb"])

/-- Remote endpoint for the second poll of the C7 witness. -/
def sampleRemote2 : String → RemoteStatus :=
  fun _ => RemoteStatus.inProgress

/-- The store after the first poll of the C7 witness. -/
def sampleJobs2 : List BatchJob :=
  [{ id := "job1", finished := true,
     requests := [{ content := "a", result := some "ra" },
                  { content := "b", result := some "rb" }] }]

/-- Witness for C7 at the spec's own example: a store with one completed job
of two requests; after `poll()` both results are populated positionally, the
job is finished, and the next cycle queries nothing for its id. -/
theorem checkBatchStatus_completed_job_witness :
    completeJob sampleJob ["ra", "rb"] ∈ sampleJobs2 ∧
    ((setResults sampleJob.requests ["ra", "rb"])[0]?).map BatchRequest.result =
      some ((["ra", "rb"] : List String)[0]?) ∧
    sampleJob.id ∉ ([] : List String) :=
  ⟨(checkBatchStatus_completed_job sampleRemote sampleRemote2 [sampleJob]
      sampleJobs2 sampleJobs2 ["job1"] [] sampleJob ["ra", "rb"]
      (by simp) rfl rfl rfl (by decide) (by rfl) (by rfl)).1,
   (checkBatchStatus_completed_job sampleRemote sampleRemote2 [sampleJob]
      sampleJobs2 sampleJobs2 ["job1"] [] sampleJob ["ra", "rb"]
      (by simp) rfl rfl rfl (by decide) (by rfl) (by rfl)).2.1 0 (by decide),
   (checkBatchStatus_completed_job sampleRemote sampleRemote2 [sampleJob]
      sampleJobs2 sampleJobs2 ["job1"] [] sampleJob ["ra", "rb"]
      (by simp) rfl rfl rfl (by decide) (by rfl) (by rfl)).2.2⟩

end SrtAi
